import Mathlib

/-!
Verification of the articulated-arm motion planner (robot-control) against its
natural-language specification.

The development shallowly embeds the parts of the source the claims are about:

* the `Vec3` vector module (`src/unnamed/part_001`), including a small
  store/reference model to state which operations mutate their arguments in
  place and which return fresh vectors;
* the self-collision detector (`Collision` in `src/src/IKRobot.js`);
* the `ArmSolution` plan operations (`serialize`, `applySolution`,
  `validatePoint`, `solutionIsValid`) and the `Robot` session operations
  (`commitPlan`, `loadPlan`, the target-ingest part of `update`) from
  `src/src/IKRobot.js`;
* the simulated-annealing acceptance probability.

JavaScript floating-point numbers are modelled as real numbers where square
roots occur (the `Vec3` module) and as rationals elsewhere, so that the
embedded operations stay executable and decidable on concrete inputs.

The kinematic library files `lib/Node`, `lib/Tree` and `lib/Jacobian` are not
part of the sources; where a claim depends on them (`Tree.Compute`,
`Jacobian.UpdateThetas`) the missing operation is modelled from the
specification, and each such definition says so in its doc comment.
-/

set_option maxHeartbeats 1000000

namespace RobotControl

/-! ## Vec3 module (`src/unnamed/part_001`), real-valued -/

/-- A 3-vector of real numbers, the model of a JS `{x, y, z}` object value. -/
@[ext]
structure Vec3 where
  x : ℝ
  y : ℝ
  z : ℝ

/-- Embeds `lerpScalar(v0, v1, t) = v0 * (1 - t) + v1 * t`. -/
def lerpScalar (v0 v1 t : ℝ) : ℝ := v0 * (1 - t) + v1 * t

/-- The Euclidean magnitude `Math.sqrt(x*x + y*y + z*z)` used by `normalise`. -/
noncomputable def magnitude (v : Vec3) : ℝ :=
  Real.sqrt (v.x * v.x + v.y * v.y + v.z * v.z)

/-- Embeds `normalise(v)`: if `x === 0 && y === 0 && z === 0` the argument is
returned unchanged, otherwise each component is divided by the magnitude. -/
noncomputable def normalise (v : Vec3) : Vec3 :=
  haveI := Classical.propDecidable (v.x = 0 ∧ v.y = 0 ∧ v.z = 0)
  if v.x = 0 ∧ v.y = 0 ∧ v.z = 0 then v
  else ⟨v.x / magnitude v, v.y / magnitude v, v.z / magnitude v⟩

/-! ### Store model for mutation and aliasing

JS `Vec3` values are heap objects passed by reference.  A store is a list of
vector values; a reference is an index into the store.  Each embedded
operation returns the updated store together with the reference it returns,
so "mutates its first argument in place and returns it" is the statement
that the returned reference equals the first argument's reference. -/

/-- A heap of `Vec3` objects; references are indices. -/
abbrev Store := List Vec3

/-- Reads the vector value a reference points at. -/
def readV (h : Store) (r : ℕ) : Vec3 := h.getD r ⟨0, 0, 0⟩

/-- Embeds `clone(v)`: allocates a fresh object with the same components. -/
def cloneOp (h : Store) (r : ℕ) : Store × ℕ :=
  (h ++ [readV h r], h.length)

/-- Embeds `sub(v1, v2)`: subtracts componentwise into `v1` and returns `v1`. -/
def subOp (h : Store) (r1 r2 : ℕ) : Store × ℕ :=
  let v1 := readV h r1
  let v2 := readV h r2
  (h.set r1 ⟨v1.x - v2.x, v1.y - v2.y, v1.z - v2.z⟩, r1)

/-- Embeds `add(v1, v2)`: adds componentwise into `v1` and returns `v1`. -/
def addOp (h : Store) (r1 r2 : ℕ) : Store × ℕ :=
  let v1 := readV h r1
  let v2 := readV h r2
  (h.set r1 ⟨v1.x + v2.x, v1.y + v2.y, v1.z + v2.z⟩, r1)

/-- Embeds `mulScalar(v, scalar)`: scales each component of `v` in place and
returns `v`. -/
def mulScalarOp (h : Store) (r : ℕ) (k : ℝ) : Store × ℕ :=
  let v := readV h r
  (h.set r ⟨v.x * k, v.y * k, v.z * k⟩, r)

/-- Embeds `normalise(v)` as a store operation: the components of the object
`v` are updated in place (the net effect of the three divisions) and the same
reference is returned. -/
noncomputable def normaliseOp (h : Store) (r : ℕ) : Store × ℕ :=
  (h.set r (normalise (readV h r)), r)

/-- Embeds `directionTo(v1, v2) = normalise(sub(clone(v2), v1))`. -/
noncomputable def directionToOp (h : Store) (r1 r2 : ℕ) : Store × ℕ :=
  let c := cloneOp h r2
  let s := subOp c.1 c.2 r1
  normaliseOp s.1 s.2

/-- Embeds `lerp(v1, v2, t)`: builds a fresh object literal from the
componentwise `lerpScalar`. -/
def lerpOp (h : Store) (r1 r2 : ℕ) (t : ℝ) : Store × ℕ :=
  let v1 := readV h r1
  let v2 := readV h r2
  (h ++ [⟨lerpScalar v1.x v2.x t, lerpScalar v1.y v2.y t, lerpScalar v1.z v2.z t⟩],
    h.length)

/-! ### Store lemmas -/

theorem readV_set_self {h : Store} {r : ℕ} (hr : r < h.length) (v : Vec3) :
    readV (h.set r v) r = v := by
  simp [readV, List.getD, List.getElem?_set_self, hr]

theorem readV_set_ne {h : Store} {r r' : ℕ} (hne : r' ≠ r) (v : Vec3) :
    readV (h.set r v) r' = readV h r' := by
  simp [readV, List.getD, List.getElem?_set_ne (Ne.symm hne)]

theorem readV_append_lt {h : Store} {l : Store} {r : ℕ} (hr : r < h.length) :
    readV (h ++ l) r = readV h r := by
  simp [readV, List.getD, List.getElem?_append, hr]

theorem readV_append_self (h : Store) (v : Vec3) :
    readV (h ++ [v]) h.length = v := by
  simp [readV, List.getD]

/-- Claim C9: the vector normalisation function is total and never divides by
zero: on the zero vector it returns the zero vector unchanged, and on every
other vector the magnitude is strictly positive (so the divisions are by a
nonzero number) and the result is the input scaled by the reciprocal of the
Euclidean magnitude. -/
theorem claim_C9_normalise_total :
    normalise ⟨0, 0, 0⟩ = ⟨0, 0, 0⟩ ∧
      ∀ v : Vec3, ¬(v.x = 0 ∧ v.y = 0 ∧ v.z = 0) →
        0 < magnitude v ∧
          normalise v =
            ⟨v.x * (magnitude v)⁻¹, v.y * (magnitude v)⁻¹, v.z * (magnitude v)⁻¹⟩ := by
  constructor
  · rw [normalise]
    simp
  · intro v hv
    have hxx := mul_self_nonneg v.x
    have hyy := mul_self_nonneg v.y
    have hzz := mul_self_nonneg v.z
    have hsum : 0 < v.x * v.x + v.y * v.y + v.z * v.z := by
      rcases lt_or_eq_of_le (by positivity : (0 : ℝ) ≤ v.x * v.x + v.y * v.y + v.z * v.z)
        with h1 | h1
      · exact h1
      · exfalso
        apply hv
        refine ⟨?_, ?_, ?_⟩
        · nlinarith
        · nlinarith
        · nlinarith
    have hmag : 0 < magnitude v := Real.sqrt_pos.mpr hsum
    refine ⟨hmag, ?_⟩
    rw [normalise, if_neg hv]
    have hx : v.x / magnitude v = v.x * (magnitude v)⁻¹ := div_eq_mul_inv _ _
    have hy : v.y / magnitude v = v.y * (magnitude v)⁻¹ := div_eq_mul_inv _ _
    have hz : v.z / magnitude v = v.z * (magnitude v)⁻¹ := div_eq_mul_inv _ _
    rw [hx, hy, hz]

/-- Witness for C9 at the concrete nonzero vector (3, 4, 0), whose magnitude
is 5. -/
theorem claim_C9_witness :
    ¬((3 : ℝ) = 0 ∧ (4 : ℝ) = 0 ∧ (0 : ℝ) = 0) ∧
      (0 < magnitude ⟨3, 4, 0⟩ ∧
        normalise ⟨3, 4, 0⟩ =
          ⟨3 * (magnitude ⟨3, 4, 0⟩)⁻¹, 4 * (magnitude ⟨3, 4, 0⟩)⁻¹,
            0 * (magnitude ⟨3, 4, 0⟩)⁻¹⟩) :=
  ⟨by norm_num, claim_C9_normalise_total.2 ⟨3, 4, 0⟩ (by norm_num)⟩

/-- Claim C10: `sub`, `add` and `mulScalar` update the components of their
first argument in the store and return the very same reference (the result
aliases the input), without allocating; `clone`, `lerp` and `directionTo`
return a reference that is fresh (distinct from every existing reference)
and leave the value of every existing reference unchanged. -/
theorem claim_C10_mutation_and_freshness :
    ∀ (h : Store) (r1 r2 r : ℕ) (k t : ℝ),
      r1 < h.length → r2 < h.length →
      ((subOp h r1 r2).2 = r1 ∧ (subOp h r1 r2).1.length = h.length ∧
        readV (subOp h r1 r2).1 r1 =
          ⟨(readV h r1).x - (readV h r2).x, (readV h r1).y - (readV h r2).y,
            (readV h r1).z - (readV h r2).z⟩ ∧
        (r ≠ r1 → readV (subOp h r1 r2).1 r = readV h r)) ∧
      ((addOp h r1 r2).2 = r1 ∧ (addOp h r1 r2).1.length = h.length ∧
        readV (addOp h r1 r2).1 r1 =
          ⟨(readV h r1).x + (readV h r2).x, (readV h r1).y + (readV h r2).y,
            (readV h r1).z + (readV h r2).z⟩ ∧
        (r ≠ r1 → readV (addOp h r1 r2).1 r = readV h r)) ∧
      ((mulScalarOp h r1 k).2 = r1 ∧ (mulScalarOp h r1 k).1.length = h.length ∧
        readV (mulScalarOp h r1 k).1 r1 =
          ⟨(readV h r1).x * k, (readV h r1).y * k, (readV h r1).z * k⟩ ∧
        (r ≠ r1 → readV (mulScalarOp h r1 k).1 r = readV h r)) ∧
      ((cloneOp h r1).2 = h.length ∧ (cloneOp h r1).2 ≠ r1 ∧ (cloneOp h r1).2 ≠ r2 ∧
        readV (cloneOp h r1).1 (cloneOp h r1).2 = readV h r1 ∧
        (r < h.length → readV (cloneOp h r1).1 r = readV h r)) ∧
      ((lerpOp h r1 r2 t).2 = h.length ∧
        readV (lerpOp h r1 r2 t).1 (lerpOp h r1 r2 t).2 =
          ⟨lerpScalar (readV h r1).x (readV h r2).x t,
            lerpScalar (readV h r1).y (readV h r2).y t,
            lerpScalar (readV h r1).z (readV h r2).z t⟩ ∧
        (r < h.length → readV (lerpOp h r1 r2 t).1 r = readV h r)) ∧
      ((directionToOp h r1 r2).2 = h.length ∧
        (r < h.length → readV (directionToOp h r1 r2).1 r = readV h r)) := by
  intro h r1 r2 r k t h1 h2
  refine ⟨⟨rfl, by simp [subOp], readV_set_self h1 _, fun hne => readV_set_ne hne _⟩,
    ⟨rfl, by simp [addOp], readV_set_self h1 _, fun hne => readV_set_ne hne _⟩,
    ⟨rfl, by simp [mulScalarOp], readV_set_self h1 _, fun hne => readV_set_ne hne _⟩,
    ⟨rfl, Nat.ne_of_gt h1, Nat.ne_of_gt h2, readV_append_self h _,
      fun hr => readV_append_lt hr⟩,
    ⟨rfl, readV_append_self h _, fun hr => readV_append_lt hr⟩,
    ?_, ?_⟩
  · rfl
  · intro hr
    show readV (((h ++ [readV h r2]).set h.length _).set h.length _) r = readV h r
    rw [readV_set_ne (Nat.ne_of_lt hr), readV_set_ne (Nat.ne_of_lt hr),
      readV_append_lt hr]

/-- Witness for C10 on the concrete two-element store
[(1, 2, 3), (4, 5, 6)] with references 0 and 1. -/
theorem claim_C10_witness :
    (subOp [(⟨1, 2, 3⟩ : Vec3), ⟨4, 5, 6⟩] 0 1).2 = 0 ∧
      readV (subOp [(⟨1, 2, 3⟩ : Vec3), ⟨4, 5, 6⟩] 0 1).1 1 =
        readV [(⟨1, 2, 3⟩ : Vec3), ⟨4, 5, 6⟩] 1 ∧
      (cloneOp [(⟨1, 2, 3⟩ : Vec3), ⟨4, 5, 6⟩] 0).2 = 2 ∧
      (directionToOp [(⟨1, 2, 3⟩ : Vec3), ⟨4, 5, 6⟩] 0 1).2 = 2 := by
  have H := claim_C10_mutation_and_freshness [(⟨1, 2, 3⟩ : Vec3), ⟨4, 5, 6⟩] 0 1 1 0 0
    (by norm_num) (by norm_num)
  exact ⟨H.1.1, H.1.2.2.2 (by norm_num), H.2.2.2.1.1, H.2.2.2.2.2.1⟩

/-! ## Rational 3-vectors for the arm and collision model

The arm-level code (`IKRobot.js`) is embedded over ℚ so that every operation
stays decidable on concrete inputs.  The only irrational quantity it consumes,
`Vec3.distanceTo` inside the collision test, appears only in the comparison
`distanceTo(a, b) < r`, which is embedded in the equivalent squared form
`0 < r ∧ distSq a b < r * r` (`Real.sqrt d < r ↔ 0 < r ∧ d < r ^ 2` for
`d ≥ 0`). -/

/-- A 3-vector of rationals (arm-side model of a JS `{x, y, z}` value). -/
@[ext]
structure Vec3Q where
  x : ℚ
  y : ℚ
  z : ℚ
  deriving DecidableEq

/-- Componentwise `lerpScalar` over ℚ (same formula as the real one). -/
def lerpQS (v0 v1 t : ℚ) : ℚ := v0 * (1 - t) + v1 * t

/-- Embeds `Vec3.lerp(v1, v2, t)` over ℚ. -/
def lerpQ (a b : Vec3Q) (t : ℚ) : Vec3Q :=
  ⟨lerpQS a.x b.x t, lerpQS a.y b.y t, lerpQS a.z b.z t⟩

/-- The squared distance `dx*dx + dy*dy + dz*dz` computed by
`Vec3.distanceTo` before its square root is taken. -/
def distSq (a b : Vec3Q) : ℚ :=
  (a.x - b.x) * (a.x - b.x) + (a.y - b.y) * (a.y - b.y) + (a.z - b.z) * (a.z - b.z)

/-! ## Collision detector (`Collision` in `src/src/IKRobot.js`) -/

/-- A collision sphere (`CollisionVolume`). -/
structure Volume where
  isColliding : Bool
  center : Vec3Q
  radius : ℚ
  distanceAlongArmSegment : ℚ
  deriving DecidableEq

instance : Inhabited Volume := ⟨⟨false, ⟨0, 0, 0⟩, 0, 0⟩⟩

/-- An arm segment (`ArmSegment`): its node-index range and its spheres.  The
`start`/`end` fields of the source alias the arm nodes' position objects, so
the embedded update operations receive the current positions explicitly. -/
structure Seg where
  indexRange : ℕ × ℕ
  volumes : List Volume
  deriving DecidableEq

instance : Inhabited Seg := ⟨⟨(0, 0), []⟩⟩

/-- The collision detector state: the list of arm segments. -/
structure Collision where
  armSegments : List Seg
  deriving DecidableEq

/-- Embeds the sphere-overlap test
`Vec3.distanceTo(volA.center, volB.center) < volA.radius + volB.radius`
in the equivalent squared form (see the section comment). -/
def hitB (a b : Volume) : Bool :=
  decide (0 < a.radius + b.radius) &&
    decide (distSq a.center b.center < (a.radius + b.radius) * (a.radius + b.radius))

/-- Embeds `_updateSegmentCollisions(segA, segB)`.  The imperative double loop
only ever raises `isColliding` flags (`flag = flag || true` on a hit), and the
hit test reads only centers and radii, which the loop never writes, so its net
effect is the two maps below.  The reference test `volA != volB` is always
true here because the two segments passed in are distinct objects holding
distinct sphere objects. -/
def updateSegmentCollisions (segA segB : Seg) : Seg × Seg :=
  (⟨segA.indexRange, segA.volumes.map fun vA =>
      { vA with isColliding := vA.isColliding || segB.volumes.any fun vB => hitB vA vB }⟩,
    ⟨segB.indexRange, segB.volumes.map fun vB =>
      { vB with isColliding := vB.isColliding || segA.volumes.any fun vA => hitB vA vB }⟩)

/-- One iteration of the nested segment loops of `_updateCollisions` at the
ordered index pair `ab`: skip when the two segments are the same object
(`segA === segB`, i.e. equal indices into the live list) or adjacent
(`segA.indexRange[0] === segB.indexRange[1] || segB.indexRange[0] === segA.indexRange[1]`),
otherwise run `_updateSegmentCollisions` and store both updated segments. -/
def pairStep (segs : List Seg) (ab : ℕ × ℕ) : List Seg :=
  let segA := segs.getD ab.1 default
  let segB := segs.getD ab.2 default
  if ab.1 = ab.2 ∨ segA.indexRange.1 = segB.indexRange.2 ∨
      segB.indexRange.1 = segA.indexRange.2 then
    segs
  else
    let p := updateSegmentCollisions segA segB
    (segs.set ab.1 p.1).set ab.2 p.2

/-- The ordered index pairs `(a, b)` visited by the two nested `for` loops of
`_updateCollisions`, in visit order. -/
def allPairs (n : ℕ) : List (ℕ × ℕ) :=
  (List.range n).flatMap fun a => (List.range n).map fun b => (a, b)

/-- Embeds `_updateCollisions()`: first clear every `isColliding` flag, then
run the nested segment loops. -/
def updateCollisions (c : Collision) : Collision :=
  let cleared : List Seg := c.armSegments.map fun s =>
    ⟨s.indexRange, s.volumes.map fun v => { v with isColliding := false }⟩
  ⟨(allPairs cleared.length).foldl pairStep cleared⟩

/-- Embeds `_updatePositions()`: every sphere center is re-interpolated
between its segment's current endpoints.  The segment `start`/`end` fields
alias the arm node positions `arm[i-1]`, `arm[i]`, so the segment at list
position `i` spans `pos[i]` to `pos[i+1]` of the position list passed in. -/
def updatePositions (pos : List Vec3Q) (c : Collision) : Collision :=
  ⟨c.armSegments.mapIdx fun i s =>
    ⟨s.indexRange, s.volumes.map fun v =>
      { v with center :=
          (lerpQ (pos.getD i ⟨0, 0, 0⟩) (pos.getD (i + 1) ⟨0, 0, 0⟩)
            v.distanceAlongArmSegment) }⟩⟩

/-- Embeds `Collision.update()`: `_updatePositions` then `_updateCollisions`. -/
def collisionUpdate (pos : List Vec3Q) (c : Collision) : Collision :=
  updateCollisions (updatePositions pos c)

/-- The flat `volumes` array of a `Collision` (built in construction order:
segments in order, each segment's spheres in order). -/
def volumesFlat (c : Collision) : List Volume :=
  (c.armSegments.map Seg.volumes).flatten

/-- Embeds `areAnyColliding()`. -/
def areAnyColliding (c : Collision) : Bool :=
  (volumesFlat c).any fun v => v.isColliding

/-! ## Simulated annealing acceptance (`src/src/IKRobot.js`) -/

/-- Embeds the constant `annealingE = 2.71828`. -/
def annealingE : ℚ := 271828 / 100000

/-- Embeds `annealingAcceptanceProbability(oldCost, newCost, T)`, which the
source computes as `annealingE * ((oldCost - newCost) / T)`. -/
def annealingAcceptanceProbability (oldCost newCost T : ℚ) : ℚ :=
  annealingE * ((oldCost - newCost) / T)

/-- Embeds the acceptance test inside `_annealSolution`:
`ap > Math.random()`, with `u` standing for the uniform sample. -/
def annealAccept (oldCost newCost T u : ℚ) : Bool :=
  decide (annealingAcceptanceProbability oldCost newCost T > u)

/-- Claim C1 (evidence of the code bug): at equal costs (oldCost = newCost = 0,
T = 1) the code's acceptance value is `annealingE * 0 = 0`, so the candidate is
rejected against the sample 1/2, while the probability the claim states,
`E ^ ((oldCost − newCost)/T) = E ^ 0 = 1`, would accept it: the code multiplies
by E = 2.71828 where the specification exponentiates. -/
theorem claim_C1_acceptance_mismatch :
    annealingAcceptanceProbability 0 0 1 = 0 ∧
      annealAccept 0 0 1 (1 / 2) = false ∧
      ((annealingE : ℝ) ^ (((0 : ℝ) - 0) / 1) = 1 ∧ ((1 : ℝ) / 2) < 1) := by
  have hap : annealingAcceptanceProbability 0 0 1 = 0 := by
    simp [annealingAcceptanceProbability]
  refine ⟨hap, ?_, ?_, by norm_num⟩
  · simp [annealAccept, hap]
  · rw [show ((0 : ℝ) - 0) / 1 = 0 by norm_num, Real.rpow_zero]

/-! ## Kinematic nodes and the arm solution (`src/src/IKRobot.js`) -/

/-- A node is a joint or an end-effector (spec §3). -/
inductive Purpose where
  | JOINT : Purpose
  | EFFECTOR : Purpose
  deriving DecidableEq

/-- One kinematic node: the construction-time fields (`purpose`, `attach`,
`rotationAxis`, the angle limits, `isFrozen`), the joint angle `theta`, and
the world-space results of forward kinematics (`s`, `w`). -/
structure IKNode where
  purpose : Purpose
  attach : Vec3Q
  axis : Vec3Q
  minTheta : ℚ
  maxTheta : ℚ
  frozen : Bool
  theta : ℚ
  s : Vec3Q
  w : Vec3Q
  deriving DecidableEq

instance : Inhabited Vec3Q := ⟨⟨0, 0, 0⟩⟩

instance : Inhabited IKNode :=
  ⟨⟨Purpose.JOINT, ⟨0, 0, 0⟩, ⟨0, 0, 1⟩, 0, 0, false, 0, ⟨0, 0, 0⟩, ⟨0, 0, 0⟩⟩⟩

/-- A 3×3 rational matrix, by rows. -/
structure Mat3 where
  r1 : Vec3Q
  r2 : Vec3Q
  r3 : Vec3Q

/-- Dot product over ℚ. -/
def dotQ (a b : Vec3Q) : ℚ := a.x * b.x + a.y * b.y + a.z * b.z

/-- Matrix-vector product. -/
def Mat3.mulVec (m : Mat3) (v : Vec3Q) : Vec3Q :=
  ⟨dotQ m.r1 v, dotQ m.r2 v, dotQ m.r3 v⟩

/-- Matrix product. -/
def Mat3.mul (m n : Mat3) : Mat3 :=
  ⟨⟨dotQ m.r1 ⟨n.r1.x, n.r2.x, n.r3.x⟩, dotQ m.r1 ⟨n.r1.y, n.r2.y, n.r3.y⟩,
      dotQ m.r1 ⟨n.r1.z, n.r2.z, n.r3.z⟩⟩,
    ⟨dotQ m.r2 ⟨n.r1.x, n.r2.x, n.r3.x⟩, dotQ m.r2 ⟨n.r1.y, n.r2.y, n.r3.y⟩,
      dotQ m.r2 ⟨n.r1.z, n.r2.z, n.r3.z⟩⟩,
    ⟨dotQ m.r3 ⟨n.r1.x, n.r2.x, n.r3.x⟩, dotQ m.r3 ⟨n.r1.y, n.r2.y, n.r3.y⟩,
      dotQ m.r3 ⟨n.r1.z, n.r2.z, n.r3.z⟩⟩⟩

/-- The identity matrix. -/
def idMat : Mat3 := ⟨⟨1, 0, 0⟩, ⟨0, 1, 0⟩, ⟨0, 0, 1⟩⟩

/-- Rodrigues' rotation matrix about the unit axis `u` with cosine `c` and
sine `s` of the rotation angle. -/
def rodrigues (u : Vec3Q) (c s : ℚ) : Mat3 :=
  ⟨⟨c + u.x * u.x * (1 - c), u.x * u.y * (1 - c) - u.z * s, u.x * u.z * (1 - c) + u.y * s⟩,
    ⟨u.y * u.x * (1 - c) + u.z * s, c + u.y * u.y * (1 - c), u.y * u.z * (1 - c) - u.x * s⟩,
    ⟨u.z * u.x * (1 - c) - u.y * s, u.z * u.y * (1 - c) + u.x * s, c + u.z * u.z * (1 - c)⟩⟩

/-- The trigonometric functions the forward-kinematics pass consumes, supplied
as parameters over ℚ (the properties proved below hold for every choice). -/
structure Trig where
  cosQ : ℚ → ℚ
  sinQ : ℚ → ℚ

/-- Modelled from the spec: the recursive walk of `Tree.Compute` (`lib/Tree`
is not among the sources; only its callers are).  Spec §4.4: in root-to-node
order each node's local `attach` is rotated by the accumulated rotation of its
ancestors (Rodrigues' formula about each ancestor's axis by that ancestor's θ)
to give `r`, then `s = parent.s + r`, and the rotation axis is propagated to
the world axis `w`.  The arm built by `ArmSolution` is a left-child chain, so
the node list is walked in order with an accumulated parent position and
rotation. -/
def computeAux (t : Trig) (sPar : Vec3Q) (rot : Mat3) : List IKNode → List IKNode
  | [] => []
  | n :: rest =>
    let r := rot.mulVec n.attach
    let sNew : Vec3Q := ⟨sPar.x + r.x, sPar.y + r.y, sPar.z + r.z⟩
    let wNew := rot.mulVec n.axis
    let rotNew := rot.mul (rodrigues n.axis (t.cosQ n.theta) (t.sinQ n.theta))
    { n with s := sNew, w := wNew } :: computeAux t sNew rotNew rest

/-- Modelled from the spec: `Tree.Compute` (see `computeAux`), starting from
the world origin with the identity orientation. -/
def computeNodes (t : Trig) (nodes : List IKNode) : List IKNode :=
  computeAux t ⟨0, 0, 0⟩ idMat nodes

/-- The state of an `ArmSolution`: its nodes, its target list and its
collision detector. -/
structure Arm where
  nodes : List IKNode
  targetVectors : List Vec3Q
  collision : Collision

/-- Embeds `serialize()`: the list of the nodes' thetas, in node order. -/
def serialize (arm : Arm) : List ℚ := arm.nodes.map IKNode.theta

/-- Embeds `applySolution(solution)`: `node.theta = solution[i]` for every
node, then `ikTree.Compute()`.  There is no length check and no limit check.
(For `i ≥ solution.length` JS would assign `undefined`; the model keeps the
previous theta there instead — every theorem below either assumes
`nodes.length ≤ solution.length` or instantiates it, so the modelled region
coincides with the source wherever it is used.) -/
def applySolution (t : Trig) (arm : Arm) (solution : List ℚ) : Arm :=
  { arm with nodes := (computeNodes t
      (arm.nodes.mapIdx fun i n => { n with theta := solution.getD i n.theta })) }

/-- Embeds `validatePoint(p, i)`: for `i > 0` it is `p.y >= 0`, for the base
node it is unconditionally true. -/
def validatePoint (p : Vec3Q) (i : ℕ) : Bool :=
  if 0 < i then decide (0 ≤ p.y) else true

/-- Embeds `solutionIsValid()`: refresh the collision state
(`this.collision.update()`, whose segment endpoints alias the nodes' world
positions, passed here explicitly) and return
`!areAnyColliding() && ikNodes.every((node, i) => validatePoint(node.s, i))`. -/
def solutionIsValid (arm : Arm) : Bool :=
  let c := collisionUpdate (arm.nodes.map IKNode.s) arm.collision
  !areAnyColliding c && (arm.nodes.enum.all fun p => validatePoint p.2.s p.1)

/-- The clamp `min(max(x, lo), hi)` used on joint angles. -/
def clampQ (x lo hi : ℚ) : ℚ := max lo (min x hi)

/-- Modelled from the spec: `Jacobian.UpdateThetas` (`lib/Jacobian` is not
among the sources).  Spec §4.5 step 4: `θ ← clamp(θ + Δθ, minθ, maxθ)` for
every non-frozen joint (effectors have θ = 0 and no Jacobian column, spec §3),
then `Tree.Compute` refreshes the world positions.  The Δθ vector produced by
`CalcDeltaThetasSDLS` is taken as a parameter, so the statements below hold
for every Δθ the solver could produce. -/
def updateThetas (t : Trig) (delta : List ℚ) (arm : Arm) : Arm :=
  { arm with nodes := (computeNodes t
      (arm.nodes.mapIdx fun i n =>
        if n.frozen || n.purpose == Purpose.EFFECTOR then n
        else { n with theta := clampQ (n.theta + delta.getD i 0) n.minTheta n.maxTheta })) }

/-- Modelled from the spec: `stepIKState()` (§4.5) — the stages before
`UpdateThetas` only choose the Δθ vector, which is abstracted as the
parameter `delta`; `UpdateThetas` is the only stage that changes thetas. -/
def stepIKState (t : Trig) (delta : List ℚ) (arm : Arm) : Arm :=
  updateThetas t delta arm

/-- The `Robot` session state the claims touch: the planned and committed
solutions and the target proxy positions. -/
structure RobotState where
  plannedArmSolution : Arm
  committedArmSolution : Arm
  targetProxies : List Vec3Q

/-- Embeds `Robot.commitPlan()`: serialize the planned solution, apply the
vector to the committed solution, and return the vector. -/
def commitPlan (t : Trig) (r : RobotState) : List ℚ × RobotState :=
  let plan := serialize r.plannedArmSolution
  (plan, { r with committedArmSolution := applySolution t r.committedArmSolution plan })

/-- Embeds `Robot.loadPlan(args)`: apply the plan to the planned solution and
copy the target into the first target proxy position. -/
def loadPlan (t : Trig) (r : RobotState) (plan : List ℚ) (target : Vec3Q) : RobotState :=
  { r with
    plannedArmSolution := applySolution t r.plannedArmSolution plan
    targetProxies := r.targetProxies.set 0 target }

/-- Embeds the target-ingest loop at the top of `Robot.update()`: every proxy
with `position.y <= 0` has its y component set to 0.001, then each proxy
position is copied (`targetVectors[i].Set(...)`) into the planned solution's
target vector of the same index. -/
def ingestTargets (r : RobotState) : RobotState :=
  let proxies := r.targetProxies.map fun p =>
    if p.y ≤ 0 then (⟨p.x, 1 / 1000, p.z⟩ : Vec3Q) else p
  { r with
    targetProxies := proxies
    plannedArmSolution := { r.plannedArmSolution with targetVectors :=
      (r.plannedArmSolution.targetVectors.mapIdx fun i tv => proxies.getD i tv) } }

/-! ## Helper lemmas about the forward-kinematics pass -/

/-- Erases the fields `Compute` writes (`s`, `w`), keeping the fields it only
reads; used to state that the pass changes nothing else. -/
def stripPose (n : IKNode) : IKNode := { n with s := ⟨0, 0, 0⟩, w := ⟨0, 0, 0⟩ }

theorem computeAux_map_stripPose (t : Trig) (p : Vec3Q) (R : Mat3) (ns : List IKNode) :
    (computeAux t p R ns).map stripPose = ns.map stripPose := by
  induction ns generalizing p R with
  | nil => rfl
  | cons n rest ih =>
    simp only [computeAux, List.map_cons, List.cons.injEq]
    exact ⟨rfl, ih _ _⟩

theorem computeNodes_map_stripPose (t : Trig) (ns : List IKNode) :
    (computeNodes t ns).map stripPose = ns.map stripPose :=
  computeAux_map_stripPose t ⟨0, 0, 0⟩ idMat ns

theorem computeNodes_length (t : Trig) (ns : List IKNode) :
    (computeNodes t ns).length = ns.length := by
  have h := congrArg List.length (computeNodes_map_stripPose t ns)
  simpa using h

theorem computeNodes_map_theta (t : Trig) (ns : List IKNode) :
    (computeNodes t ns).map IKNode.theta = ns.map IKNode.theta := by
  have h := congrArg (List.map IKNode.theta) (computeNodes_map_stripPose t ns)
  simpa [List.map_map, Function.comp, stripPose] using h

theorem computeNodes_stripPose_getD (t : Trig) (ns : List IKNode) (i : ℕ)
    (h : i < ns.length) :
    stripPose ((computeNodes t ns).getD i default) = stripPose (ns.getD i default) := by
  rw [List.getD_eq_getElem _ _ (by rw [computeNodes_length]; exact h),
    List.getD_eq_getElem _ _ h]
  have e1 : ((computeNodes t ns).map stripPose).getD i default =
      (ns.map stripPose).getD i default := by
    rw [computeNodes_map_stripPose]
  rw [List.getD_eq_getElem _ _ (by simp [computeNodes_length, h]),
    List.getD_eq_getElem _ _ (by simp [h])] at e1
  simpa using e1

theorem computeNodes_theta_getD (t : Trig) (ns : List IKNode) (i : ℕ)
    (h : i < ns.length) :
    ((computeNodes t ns).getD i default).theta = (ns.getD i default).theta := by
  have h2 := congrArg IKNode.theta (computeNodes_stripPose_getD t ns i h)
  simpa [stripPose] using h2

/-- Reassigning each node's own serialized theta is the identity on the node
list. -/
theorem mapIdx_theta_self (ns : List IKNode) :
    (ns.mapIdx fun i n => { n with theta := (ns.map IKNode.theta).getD i n.theta }) = ns := by
  apply List.ext_getElem
  · simp
  · intro i h1 h2
    have hi : i < ns.length := by simpa using h2
    rw [List.getElem_mapIdx]
    rw [List.getD_eq_getElem _ _ (by simpa using hi)]
    simp

/-- The thetas after `applySolution` are exactly the first `nodes.length`
entries of the given vector (stated for vectors at least that long). -/
theorem applySolution_map_theta (t : Trig) (arm : Arm) (sol : List ℚ)
    (h : arm.nodes.length ≤ sol.length) :
    (applySolution t arm sol).nodes.map IKNode.theta = sol.take arm.nodes.length := by
  show (computeNodes t
      (arm.nodes.mapIdx fun i n => { n with theta := sol.getD i n.theta })).map IKNode.theta =
    sol.take arm.nodes.length
  rw [computeNodes_map_theta]
  apply List.ext_getElem
  · simp [Nat.min_eq_left h]
  · intro i h1 h2
    have hi : i < arm.nodes.length := by simpa using h1
    have hisol : i < sol.length := lt_of_lt_of_le hi h
    rw [List.getElem_map, List.getElem_mapIdx, List.getElem_take]
    rw [List.getD_eq_getElem _ _ hisol]

theorem clampQ_mem (x lo hi : ℚ) (h : lo ≤ hi) :
    lo ≤ clampQ x lo hi ∧ clampQ x lo hi ≤ hi :=
  ⟨le_max_left _ _, max_le h (min_le_right _ _)⟩

/-! ## Concrete test fixtures -/

/-- A trigonometric parameter choice for concrete evaluation. -/
def trigId : Trig := ⟨fun _ => 1, fun _ => 0⟩

/-- A single revolute joint at the origin with limits [-1, 1], in the pose
`Compute` produces for it (theta 0). -/
def nodeBase : IKNode :=
  ⟨Purpose.JOINT, ⟨0, 0, 0⟩, ⟨0, 0, 1⟩, -1, 1, false, 0, ⟨0, 0, 0⟩, ⟨0, 0, 1⟩⟩

/-- A one-node arm in a `Compute`-consistent pose. -/
def armOneC : Arm := ⟨[nodeBase], [], ⟨[]⟩⟩

/-- A two-node arm. -/
def armTwo : Arm := ⟨[nodeBase, nodeBase], [], ⟨[]⟩⟩

/-- A robot session whose planned and committed solutions are the two-node
arm. -/
def robotTwo : RobotState := ⟨armTwo, armTwo, []⟩

/-! ## Claims C2, C3, C6, C7 -/

/-- Counterexample to claim C2 as stated: `applySolution` with the vector [5]
leaves the joint's theta at 5 although its limit interval is [-1, 1] — the
assignment `node.theta = solution[i]` performs no clamping. -/
theorem claim_C2_counterexample :
    ((applySolution trigId armOneC [5]).nodes.getD 0 default).theta = 5 ∧
      (armOneC.nodes.getD 0 default).maxTheta = 1 ∧ ¬((5 : ℚ) ≤ 1) := by
  refine ⟨?_, by simp [armOneC, nodeBase], by norm_num⟩
  show ((computeNodes trigId
      (armOneC.nodes.mapIdx fun i n => { n with theta := [5].getD i n.theta })).getD 0
        default).theta = 5
  rw [computeNodes_theta_getD _ _ 0 (by simp [armOneC])]
  simp [armOneC, nodeBase]

/-- Claim C2 amended: after an IK step every non-frozen joint's angle lies
within its limits (for every Δθ the SDLS stages could produce, given
min ≤ max), because `UpdateThetas` clamps; but `applySolution` — and
`loadPlan`, which delegates to it — assigns the given angles verbatim with no
clamping. -/
theorem claim_C2_joint_limits_amended :
    (∀ (t : Trig) (delta : List ℚ) (arm : Arm) (i : ℕ),
        i < arm.nodes.length →
        (arm.nodes.getD i default).frozen = false →
        (arm.nodes.getD i default).purpose = Purpose.JOINT →
        (arm.nodes.getD i default).minTheta ≤ (arm.nodes.getD i default).maxTheta →
        ((arm.nodes.getD i default).minTheta ≤
            ((stepIKState t delta arm).nodes.getD i default).theta ∧
          ((stepIKState t delta arm).nodes.getD i default).theta ≤
            (arm.nodes.getD i default).maxTheta)) ∧
      (∀ (t : Trig) (arm : Arm) (sol : List ℚ) (i : ℕ),
          i < arm.nodes.length → i < sol.length →
          ((applySolution t arm sol).nodes.getD i default).theta = sol.getD i 0) ∧
      (∀ (t : Trig) (r : RobotState) (plan : List ℚ) (tgt : Vec3Q),
          (loadPlan t r plan tgt).plannedArmSolution =
            applySolution t r.plannedArmSolution plan) := by
  refine ⟨?_, ?_, fun t r plan tgt => rfl⟩
  · intro t delta arm i hi hfr hpur hle
    have hlen2 : i < (arm.nodes.mapIdx fun i n =>
        if n.frozen || n.purpose == Purpose.EFFECTOR then n
        else { n with
          theta := clampQ (n.theta + delta.getD i 0) n.minTheta n.maxTheta }).length := by
      simpa using hi
    have ht : ((stepIKState t delta arm).nodes.getD i default).theta =
        clampQ ((arm.nodes.getD i default).theta + delta.getD i 0)
          (arm.nodes.getD i default).minTheta (arm.nodes.getD i default).maxTheta := by
      rw [List.getD_eq_getElem _ _ hi] at hfr hpur
      rw [show (stepIKState t delta arm).nodes = (computeNodes t
          (arm.nodes.mapIdx fun i n =>
            if n.frozen || n.purpose == Purpose.EFFECTOR then n
            else { n with
              theta := clampQ (n.theta + delta.getD i 0) n.minTheta n.maxTheta })) from rfl]
      rw [computeNodes_theta_getD _ _ i hlen2]
      rw [List.getD_eq_getElem _ _ hlen2, List.getElem_mapIdx]
      rw [if_neg (by simp [hfr, hpur])]
      rw [List.getD_eq_getElem arm.nodes _ hi]
    rw [ht]
    exact clampQ_mem _ _ _ hle
  · intro t arm sol i hi hisol
    have hlen3 : i < (arm.nodes.mapIdx fun i n =>
        { n with theta := sol.getD i n.theta }).length := by
      simpa using hi
    rw [show (applySolution t arm sol).nodes = (computeNodes t
        (arm.nodes.mapIdx fun i n => { n with theta := sol.getD i n.theta })) from rfl]
    rw [computeNodes_theta_getD _ _ i hlen3]
    rw [List.getD_eq_getElem _ _ hlen3, List.getElem_mapIdx]
    show sol.getD i (arm.nodes[i].theta) = sol.getD i 0
    rw [List.getD_eq_getElem sol _ hisol, List.getD_eq_getElem sol _ hisol]

/-- Witness for the amended claim C2 on the one-joint arm: the step keeps the
angle inside [-1, 1], and `applySolution` writes the raw entry 5. -/
theorem claim_C2_witness :
    ((armOneC.nodes.getD 0 default).minTheta ≤
        ((stepIKState trigId [0] armOneC).nodes.getD 0 default).theta ∧
      ((stepIKState trigId [0] armOneC).nodes.getD 0 default).theta ≤
        (armOneC.nodes.getD 0 default).maxTheta) ∧
      ((applySolution trigId armOneC [5]).nodes.getD 0 default).theta = [(5 : ℚ)].getD 0 0 :=
  ⟨claim_C2_joint_limits_amended.1 trigId [0] armOneC 0 (by simp [armOneC])
      (by simp [armOneC, nodeBase]) (by simp [armOneC, nodeBase])
      (by simp [armOneC, nodeBase]),
    claim_C2_joint_limits_amended.2.1 trigId armOneC [5] 0 (by simp [armOneC]) (by simp)⟩

/-- Counterexample to claim C3 as stated: a joint vector of length 3 applied
to the two-node arm raises no error and changes the state — the thetas become
[1, 1] although the claim requires the state to be left unchanged ([0, 0]). -/
theorem claim_C3_counterexample :
    ((3 : ℕ) ≠ armTwo.nodes.length) ∧
      (applySolution trigId armTwo [1, 1, 1]).nodes.map IKNode.theta = [1, 1] ∧
      armTwo.nodes.map IKNode.theta = [0, 0] := by
  refine ⟨by simp [armTwo], ?_, by simp [armTwo, nodeBase]⟩
  rw [applySolution_map_theta trigId armTwo [1, 1, 1] (by simp [armTwo])]
  simp [armTwo]

/-- Claim C3 amended: `applySolution` performs no length validation and
surfaces no error; it assigns `solution[i]` to node `i` index-wise (extra
entries beyond the node count are ignored) and recomputes forward kinematics,
so a mismatched vector changes the state. -/
theorem claim_C3_apply_no_length_check :
    ∀ (t : Trig) (arm : Arm) (sol : List ℚ),
      arm.nodes.length ≤ sol.length →
      (applySolution t arm sol).nodes.map IKNode.theta = sol.take arm.nodes.length :=
  applySolution_map_theta

/-- Witness for the amended claim C3 with the oversized vector [1, 1, 1] on
the two-node arm. -/
theorem claim_C3_witness :
    (applySolution trigId armTwo [1, 1, 1]).nodes.map IKNode.theta =
      [(1 : ℚ), 1, 1].take armTwo.nodes.length :=
  claim_C3_apply_no_length_check trigId armTwo [1, 1, 1] (by simp [armTwo])

/-- Claim C6: after `commitPlan()` the committed solution serializes to the
planned solution's joint vector, and that same vector is the return value
(stated for solutions with equally many nodes, as the two arms the session
constructs always have). -/
theorem claim_C6_commit_semantics :
    ∀ (t : Trig) (r : RobotState),
      r.committedArmSolution.nodes.length = r.plannedArmSolution.nodes.length →
      serialize (commitPlan t r).2.committedArmSolution = serialize r.plannedArmSolution ∧
        (commitPlan t r).1 = serialize r.plannedArmSolution := by
  intro t r h
  refine ⟨?_, rfl⟩
  show (applySolution t r.committedArmSolution
      (serialize r.plannedArmSolution)).nodes.map IKNode.theta = serialize r.plannedArmSolution
  rw [applySolution_map_theta t _ _ (by simp [serialize, h])]
  rw [h]
  show (r.plannedArmSolution.nodes.map IKNode.theta).take r.plannedArmSolution.nodes.length = _
  rw [show r.plannedArmSolution.nodes.length =
      (r.plannedArmSolution.nodes.map IKNode.theta).length by simp]
  exact List.take_length _

/-- Witness for C6 on the concrete session `robotTwo`. -/
theorem claim_C6_witness :
    serialize (commitPlan trigId robotTwo).2.committedArmSolution =
      serialize robotTwo.plannedArmSolution ∧
      (commitPlan trigId robotTwo).1 = serialize robotTwo.plannedArmSolution :=
  claim_C6_commit_semantics trigId robotTwo rfl

/-- Claim C7: on a reachable state — one whose stored pose is consistent with
its thetas, as every public operation leaves it, since each ends with a
`Compute` pass — `applySolution(serialize())` is a no-op: thetas, world
positions `s` and axes `w` (indeed the whole arm state) are unchanged. -/
theorem claim_C7_roundtrip :
    ∀ (t : Trig) (arm : Arm),
      computeNodes t arm.nodes = arm.nodes →
      applySolution t arm (serialize arm) = arm := by
  intro t arm h
  show { arm with nodes := (computeNodes t
      (arm.nodes.mapIdx fun i n =>
        { n with theta := (arm.nodes.map IKNode.theta).getD i n.theta })) } = arm
  rw [mapIdx_theta_self, h]

/-- Witness for C7 on the consistent one-node arm. -/
theorem claim_C7_witness :
    applySolution trigId armOneC (serialize armOneC) = armOneC :=
  claim_C7_roundtrip trigId armOneC (by
    simp [computeNodes, computeAux, armOneC, nodeBase, trigId, idMat, rodrigues,
      Mat3.mul, Mat3.mulVec, dotQ])

/-! ## Claims C5 and C8 -/

theorem all_enum_iff {α : Type} [Inhabited α] (l : List α) (f : ℕ × α → Bool) :
    (l.enum.all f = true) ↔ ∀ i, i < l.length → f (i, l.getD i default) = true := by
  rw [List.all_eq_true]
  constructor
  · intro H i hi
    have hx : (i, l.getD i default) ∈ l.enum := by
      rw [List.mem_iff_getElem]
      refine ⟨i, by simpa [List.enum_length] using hi, ?_⟩
      rw [List.getElem_enum, List.getD_eq_getElem _ _ hi]
    exact H _ hx
  · intro H x hx
    rw [List.mem_iff_getElem] at hx
    obtain ⟨i, hi, hEq⟩ := hx
    have hi2 : i < l.length := by simpa [List.enum_length] using hi
    have hx2 : x = (i, l.getD i default) := by
      rw [← hEq, List.getElem_enum, List.getD_eq_getElem _ _ hi2]
    rw [hx2]
    exact H i hi2

/-- Claim C5: `solutionIsValid()` is true exactly when, after the collision
refresh, no sphere is flagged and every node passes `validatePoint`; and
`validatePoint(p, i)` is unconditionally true for i = 0 and is `p.y ≥ 0` for
every i > 0. -/
theorem claim_C5_validity :
    ∀ arm : Arm,
      (solutionIsValid arm = true ↔
        ((∀ v ∈ volumesFlat (collisionUpdate (arm.nodes.map IKNode.s) arm.collision),
            v.isColliding = false) ∧
          ∀ i, i < arm.nodes.length →
            validatePoint ((arm.nodes.getD i default).s) i = true)) ∧
      (∀ p : Vec3Q, validatePoint p 0 = true) ∧
      (∀ (p : Vec3Q) (i : ℕ), 0 < i → (validatePoint p i = true ↔ 0 ≤ p.y)) := by
  intro arm
  refine ⟨?_, fun p => rfl, fun p i hi => by simp [validatePoint, hi]⟩
  have h1 : solutionIsValid arm = true ↔
      (areAnyColliding (collisionUpdate (arm.nodes.map IKNode.s) arm.collision) = false ∧
        (arm.nodes.enum.all fun p => validatePoint p.2.s p.1) = true) := by
    simp only [solutionIsValid]
    rw [Bool.and_eq_true, Bool.not_eq_true']
  rw [h1]
  apply and_congr
  · simp only [areAnyColliding]
    rw [List.any_eq_false]
    constructor
    · intro H v hv
      have := H v hv
      simpa using this
    · intro H v hv
      simp [H v hv]
  · exact all_enum_iff _ _

/-- Witness for C5: the claim's `validatePoint` characterization applied at
the concrete point (0, −1, 0) with index 1. -/
theorem claim_C5_witness :
    validatePoint ⟨0, -1, 0⟩ 1 = true ↔ 0 ≤ (Vec3Q.mk 0 (-1) 0).y :=
  (claim_C5_validity armOneC).2.2 ⟨0, -1, 0⟩ 1 (by norm_num)

/-- A robot session with a single target proxy below the ground plane. -/
def robotNeg : RobotState :=
  ⟨⟨[], [⟨0, 0, 0⟩], ⟨[]⟩⟩, ⟨[], [], ⟨[]⟩⟩, [⟨0, -1, 0⟩]⟩

/-- Counterexample to claim C8 as stated: a proxy at y = −1 is nudged to
y = 0.001 (1/1000), not to 0, before being copied into the target vector. -/
theorem claim_C8_counterexample :
    (robotNeg.targetProxies.getD 0 default).y < 0 ∧
      ((ingestTargets robotNeg).plannedArmSolution.targetVectors.getD 0 default).y =
        1 / 1000 ∧
      ((1 : ℚ) / 1000 ≠ 0) := by
  refine ⟨by norm_num [robotNeg], ?_, by norm_num⟩
  norm_num [ingestTargets, robotNeg]

/-- Claim C8 amended: the ground clamp fires for y ≤ 0 (not only y < 0) and
sets the proxy's y to 0.001 (not 0); consequently every target vector copied
from a proxy in `Robot.update()` has y > 0 — in particular y ≥ 0. -/
theorem claim_C8_ground_clamp_amended :
    ∀ (r : RobotState) (i : ℕ),
      r.plannedArmSolution.targetVectors.length ≤ r.targetProxies.length →
      i < r.plannedArmSolution.targetVectors.length →
      0 < ((ingestTargets r).plannedArmSolution.targetVectors.getD i default).y := by
  intro r i hlen hi
  have hip : i < (r.targetProxies.map fun p =>
      if p.y ≤ 0 then (⟨p.x, 1 / 1000, p.z⟩ : Vec3Q) else p).length := by
    simpa using lt_of_lt_of_le hi hlen
  have hit : i < (r.plannedArmSolution.targetVectors.mapIdx fun i tv =>
      (r.targetProxies.map fun p =>
        if p.y ≤ 0 then (⟨p.x, 1 / 1000, p.z⟩ : Vec3Q) else p).getD i tv).length := by
    simpa using hi
  rw [show (ingestTargets r).plannedArmSolution.targetVectors =
      (r.plannedArmSolution.targetVectors.mapIdx fun i tv =>
        (r.targetProxies.map fun p =>
          if p.y ≤ 0 then (⟨p.x, 1 / 1000, p.z⟩ : Vec3Q) else p).getD i tv) from rfl]
  rw [List.getD_eq_getElem _ _ hit, List.getElem_mapIdx]
  rw [List.getD_eq_getElem _ _ hip, List.getElem_map]
  split
  · norm_num
  · rename_i hc
    push_neg at hc
    exact hc

/-- Witness for the amended claim C8 on the below-ground proxy session. -/
theorem claim_C8_witness :
    0 < ((ingestTargets robotNeg).plannedArmSolution.targetVectors.getD 0 default).y :=
  claim_C8_ground_clamp_amended robotNeg 0 (by simp [robotNeg]) (by simp [robotNeg])

/-! ## Claim C4: infrastructure

The nested collision loops only ever raise `isColliding` flags, computed from
sphere data (centers, radii, index ranges) that the loops never write.  The
proof therefore tracks two facts through the fold over the visited index
pairs: the flag-erased data is invariant, and each step ORs a contribution
that depends only on that data. -/

/-- Erases a sphere's flag. -/
def stripV (v : Volume) : Volume := { v with isColliding := false }

/-- Erases every flag of a segment (this is also exactly the clearing pass of
`_updateCollisions`). -/
def stripFlagsSeg (s : Seg) : Seg := ⟨s.indexRange, s.volumes.map stripV⟩

/-- The segment at index `i` (out-of-range reads give the default segment,
which never happens in the bounded loops). -/
def segAt (segs : List Seg) (i : ℕ) : Seg := segs.getD i default

/-- The sphere at position `k` of the segment at index `i`. -/
def volAt (segs : List Seg) (i k : ℕ) : Volume := (segAt segs i).volumes.getD k default

/-- The collision flag of the sphere at `(i, k)`. -/
def flagAt (segs : List Seg) (i k : ℕ) : Bool := (volAt segs i k).isColliding

theorem getD_set_self_d {α : Type} [Inhabited α] (l : List α) (i : ℕ) (x : α)
    (h : i < l.length) : (l.set i x).getD i default = x := by
  rw [List.getD_eq_getElem _ _ (by simpa using h)]
  simp [List.getElem_set, h]

theorem getD_set_ne_d {α : Type} [Inhabited α] (l : List α) (i j : ℕ) (x : α)
    (h : j ≠ i) : (l.set i x).getD j default = l.getD j default := by
  by_cases hj : j < l.length
  · rw [List.getD_eq_getElem _ _ (by simpa using hj), List.getD_eq_getElem _ _ hj]
    simp [List.getElem_set, Ne.symm h]
  · rw [List.getD_eq_default _ _ (by simpa using Nat.le_of_not_lt hj),
      List.getD_eq_default _ _ (Nat.le_of_not_lt hj)]

theorem getD_map_d {α β : Type} [Inhabited α] [Inhabited β] (f : α → β)
    (hf : f default = default) (l : List α) (i : ℕ) :
    (l.map f).getD i default = f (l.getD i default) := by
  by_cases hi : i < l.length
  · rw [List.getD_eq_getElem _ _ (by simpa using hi), List.getD_eq_getElem _ _ hi]
    simp
  · rw [List.getD_eq_default _ _ (by simpa using Nat.le_of_not_lt hi),
      List.getD_eq_default _ _ (Nat.le_of_not_lt hi), hf]

theorem set_getD_self_any {α : Type} [Inhabited α] (l : List α) (i : ℕ) :
    l.set i (l.getD i default) = l := by
  induction l generalizing i with
  | nil => simp
  | cons a l ih =>
    cases i with
    | zero => simp [List.getD]
    | succ n =>
      simp only [List.set_cons_succ, List.getD_cons_succ]
      rw [ih]

theorem stripV_default : stripV default = default := rfl

theorem stripFlagsSeg_default : stripFlagsSeg default = default := rfl

theorem hitB_stripV_left (u v : Volume) : hitB (stripV u) v = hitB u v := rfl

theorem hitB_stripV_right (u v : Volume) : hitB u (stripV v) = hitB u v := rfl

theorem distSq_comm (a b : Vec3Q) : distSq a b = distSq b a := by
  unfold distSq
  ring

theorem hitB_symm (u v : Volume) : hitB u v = hitB v u := by
  unfold hitB
  rw [distSq_comm, add_comm u.radius v.radius]

theorem updateSegmentCollisions_strip_fst (a b : Seg) :
    stripFlagsSeg (updateSegmentCollisions a b).1 = stripFlagsSeg a := by
  simp only [updateSegmentCollisions, stripFlagsSeg, List.map_map]
  rfl

theorem updateSegmentCollisions_strip_snd (a b : Seg) :
    stripFlagsSeg (updateSegmentCollisions a b).2 = stripFlagsSeg b := by
  simp only [updateSegmentCollisions, stripFlagsSeg, List.map_map]
  rfl

theorem pairStep_length (segs : List Seg) (ab : ℕ × ℕ) :
    (pairStep segs ab).length = segs.length := by
  simp only [pairStep]
  split
  · rfl
  · simp

theorem pairStep_map_strip (segs : List Seg) (ab : ℕ × ℕ) :
    (pairStep segs ab).map stripFlagsSeg = segs.map stripFlagsSeg := by
  simp only [pairStep]
  split
  · rfl
  · rw [List.map_set, List.map_set]
    rw [updateSegmentCollisions_strip_fst, updateSegmentCollisions_strip_snd]
    rw [show stripFlagsSeg (segs.getD ab.1 default) =
        (segs.map stripFlagsSeg).getD ab.1 default from
      (getD_map_d stripFlagsSeg stripFlagsSeg_default segs ab.1).symm]
    rw [show stripFlagsSeg (segs.getD ab.2 default) =
        ((segs.map stripFlagsSeg).set ab.1
          ((segs.map stripFlagsSeg).getD ab.1 default)).getD ab.2 default from ?_]
    · rw [set_getD_self_any, set_getD_self_any]
    · rw [set_getD_self_any]
      exact (getD_map_d stripFlagsSeg stripFlagsSeg_default segs ab.2).symm

/-- The contribution one visited index pair `ab` makes to the flag of the
sphere at `(i, k)`: nothing when the pair is skipped (same or adjacent
segments); otherwise a hit of that sphere against some sphere of the other
segment of the pair, in the direction the loop tests it. -/
def pairContrib (segs : List Seg) (ab : ℕ × ℕ) (i k : ℕ) : Bool :=
  let segA := segs.getD ab.1 default
  let segB := segs.getD ab.2 default
  if ab.1 = ab.2 ∨ segA.indexRange.1 = segB.indexRange.2 ∨
      segB.indexRange.1 = segA.indexRange.2 then false
  else
    (decide (i = ab.1) && decide (k < segA.volumes.length) &&
        (segB.volumes.any fun vB => hitB (volAt segs i k) vB)) ||
      (decide (i = ab.2) && decide (k < segB.volumes.length) &&
        (segA.volumes.any fun vA => hitB vA (volAt segs i k)))

theorem flagAt_pairStep (segs : List Seg) (ab : ℕ × ℕ) (i k : ℕ)
    (ha : ab.1 < segs.length) (hb : ab.2 < segs.length) :
    flagAt (pairStep segs ab) i k = (flagAt segs i k || pairContrib segs ab i k) := by
  by_cases hg : (ab.1 = ab.2 ∨
      (segs.getD ab.1 default).indexRange.1 = (segs.getD ab.2 default).indexRange.2 ∨
      (segs.getD ab.2 default).indexRange.1 = (segs.getD ab.1 default).indexRange.2)
  · simp only [pairStep, pairContrib, if_pos hg, Bool.or_false]
  · have hne : ab.1 ≠ ab.2 := fun h => hg (Or.inl h)
    have e3 : decide (ab.1 = ab.2) = false := decide_eq_false hne
    have e3s : decide (ab.2 = ab.1) = false := decide_eq_false (Ne.symm hne)
    simp only [pairStep, pairContrib, if_neg hg]
    by_cases hia : i = ab.1
    · rw [hia]
      rw [flagAt, volAt, segAt, getD_set_ne_d _ _ _ _ hne, getD_set_self_d _ _ _ ha]
      rw [flagAt, volAt, segAt]
      rw [show (updateSegmentCollisions (segs.getD ab.1 default)
            (segs.getD ab.2 default)).1.volumes =
          (segs.getD ab.1 default).volumes.map (fun vA =>
            { vA with isColliding := vA.isColliding ||
                (segs.getD ab.2 default).volumes.any fun vB => hitB vA vB }) from rfl]
      have e1 : decide (ab.1 = ab.1) = true := decide_eq_true rfl
      rw [e1, e3]
      by_cases hk : k < (segs.getD ab.1 default).volumes.length
      · have e2 : decide (k < (segs.getD ab.1 default).volumes.length) = true :=
          decide_eq_true hk
        rw [e2]
        rw [List.getD_eq_getElem _ _ (by simp only [List.length_map]; exact hk),
          List.getElem_map, List.getD_eq_getElem _ _ hk]
        simp only [Bool.true_and, Bool.false_and, Bool.or_false]
      · have e2 : decide (k < (segs.getD ab.1 default).volumes.length) = false :=
          decide_eq_false hk
        rw [e2]
        rw [List.getD_eq_default _ _
            (by simp only [List.length_map]; exact Nat.le_of_not_lt hk),
          List.getD_eq_default _ _ (Nat.le_of_not_lt hk)]
        simp only [Bool.true_and, Bool.false_and, Bool.and_false, Bool.or_false]
    · by_cases hib : i = ab.2
      · rw [hib]
        rw [flagAt, volAt, segAt, getD_set_self_d _ _ _ (by simpa using hb)]
        rw [flagAt, volAt, segAt]
        rw [show (updateSegmentCollisions (segs.getD ab.1 default)
              (segs.getD ab.2 default)).2.volumes =
            (segs.getD ab.2 default).volumes.map (fun vB =>
              { vB with isColliding := vB.isColliding ||
                  (segs.getD ab.1 default).volumes.any fun vA => hitB vA vB }) from rfl]
        have e1 : decide (ab.2 = ab.2) = true := decide_eq_true rfl
        rw [e1, e3s]
        by_cases hk : k < (segs.getD ab.2 default).volumes.length
        · have e2 : decide (k < (segs.getD ab.2 default).volumes.length) = true :=
            decide_eq_true hk
          rw [e2]
          rw [List.getD_eq_getElem _ _ (by simp only [List.length_map]; exact hk),
            List.getElem_map, List.getD_eq_getElem _ _ hk]
          simp only [Bool.true_and, Bool.false_and, Bool.or_false, Bool.false_or]
        · have e2 : decide (k < (segs.getD ab.2 default).volumes.length) = false :=
            decide_eq_false hk
          rw [e2]
          rw [List.getD_eq_default _ _
              (by simp only [List.length_map]; exact Nat.le_of_not_lt hk),
            List.getD_eq_default _ _ (Nat.le_of_not_lt hk)]
          simp only [Bool.true_and, Bool.false_and, Bool.and_false, Bool.or_false,
            Bool.false_or]
      · rw [flagAt, volAt, segAt, getD_set_ne_d _ _ _ _ hib, getD_set_ne_d _ _ _ _ hia]
        have e4 : decide (i = ab.1) = false := decide_eq_false hia
        have e5 : decide (i = ab.2) = false := decide_eq_false hib
        rw [flagAt, volAt, segAt, e4, e5]
        simp only [Bool.false_and, Bool.or_false]


theorem pairContrib_congr (segs' segs : List Seg)
    (h : segs'.map stripFlagsSeg = segs.map stripFlagsSeg) (ab : ℕ × ℕ) (i k : ℕ) :
    pairContrib segs' ab i k = pairContrib segs ab i k := by
  have hseg : ∀ j, stripFlagsSeg (segs'.getD j default) =
      stripFlagsSeg (segs.getD j default) := by
    intro j
    have h2 := congrArg (fun l => l.getD j default) h
    simp only [getD_map_d stripFlagsSeg stripFlagsSeg_default] at h2
    exact h2
  have hrange : ∀ j, (segs'.getD j default).indexRange =
      (segs.getD j default).indexRange := by
    intro j
    have h2 := congrArg Seg.indexRange (hseg j)
    simpa [stripFlagsSeg] using h2
  have hvols : ∀ j, (segs'.getD j default).volumes.map stripV =
      (segs.getD j default).volumes.map stripV := by
    intro j
    have h2 := congrArg Seg.volumes (hseg j)
    simpa [stripFlagsSeg] using h2
  have hlenv : ∀ j, (segs'.getD j default).volumes.length =
      (segs.getD j default).volumes.length := by
    intro j
    have h2 := congrArg List.length (hvols j)
    simpa using h2
  have hvolAt : ∀ j l, stripV (volAt segs' j l) = stripV (volAt segs j l) := by
    intro j l
    have h2 := congrArg (fun vl => vl.getD l default) (hvols j)
    simp only [getD_map_d stripV stripV_default] at h2
    exact h2
  have hx : ∀ vB, hitB (volAt segs' i k) vB = hitB (volAt segs i k) vB := by
    intro vB
    calc hitB (volAt segs' i k) vB = hitB (stripV (volAt segs' i k)) vB :=
          (hitB_stripV_left _ _).symm
      _ = hitB (stripV (volAt segs i k)) vB := by rw [hvolAt]
      _ = hitB (volAt segs i k) vB := hitB_stripV_left _ _
  have hx2 : ∀ vA, hitB vA (volAt segs' i k) = hitB vA (volAt segs i k) := by
    intro vA
    calc hitB vA (volAt segs' i k) = hitB vA (stripV (volAt segs' i k)) :=
          (hitB_stripV_right _ _).symm
      _ = hitB vA (stripV (volAt segs i k)) := by rw [hvolAt]
      _ = hitB vA (volAt segs i k) := hitB_stripV_right _ _
  have hany1 : ∀ j (x : Volume),
      ((segs'.getD j default).volumes.any fun vB => hitB x vB) =
        ((segs.getD j default).volumes.any fun vB => hitB x vB) := by
    intro j x
    have h1 : ((segs'.getD j default).volumes.map stripV).any (fun vB => hitB x vB) =
        ((segs.getD j default).volumes.map stripV).any (fun vB => hitB x vB) := by
      rw [hvols j]
    simpa [List.any_map, Function.comp, hitB_stripV_right] using h1
  have hany2 : ∀ j (x : Volume),
      ((segs'.getD j default).volumes.any fun vA => hitB vA x) =
        ((segs.getD j default).volumes.any fun vA => hitB vA x) := by
    intro j x
    have h1 : ((segs'.getD j default).volumes.map stripV).any (fun vA => hitB vA x) =
        ((segs.getD j default).volumes.map stripV).any (fun vA => hitB vA x) := by
      rw [hvols j]
    simpa [List.any_map, Function.comp, hitB_stripV_left] using h1
  by_cases hg : (ab.1 = ab.2 ∨
      (segs.getD ab.1 default).indexRange.1 = (segs.getD ab.2 default).indexRange.2 ∨
      (segs.getD ab.2 default).indexRange.1 = (segs.getD ab.1 default).indexRange.2)
  · have hg' : (ab.1 = ab.2 ∨
        (segs'.getD ab.1 default).indexRange.1 = (segs'.getD ab.2 default).indexRange.2 ∨
        (segs'.getD ab.2 default).indexRange.1 = (segs'.getD ab.1 default).indexRange.2) := by
      rw [hrange ab.1, hrange ab.2]
      exact hg
    simp only [pairContrib, if_pos hg, if_pos hg']
  · have hg' : ¬(ab.1 = ab.2 ∨
        (segs'.getD ab.1 default).indexRange.1 = (segs'.getD ab.2 default).indexRange.2 ∨
        (segs'.getD ab.2 default).indexRange.1 = (segs'.getD ab.1 default).indexRange.2) := by
      rw [hrange ab.1, hrange ab.2]
      exact hg
    simp only [pairContrib, if_neg hg, if_neg hg']
    simp only [hx, hx2, hlenv ab.1, hlenv ab.2, hany1 ab.2, hany2 ab.1]

theorem flagAt_foldl_pairStep (orig : List Seg) (L : List (ℕ × ℕ)) :
    ∀ segs : List Seg, segs.map stripFlagsSeg = orig.map stripFlagsSeg →
      (∀ ab ∈ L, ab.1 < segs.length ∧ ab.2 < segs.length) →
      ∀ i k, flagAt (L.foldl pairStep segs) i k =
        (flagAt segs i k || L.any fun ab => pairContrib orig ab i k) := by
  induction L with
  | nil =>
    intro segs hdata hlen i k
    simp
  | cons ab L' ih =>
    intro segs hdata hlen i k
    rw [List.foldl_cons]
    rw [ih (pairStep segs ab) (by rw [pairStep_map_strip]; exact hdata)
      (by
        intro ab' h'
        rw [pairStep_length]
        exact hlen ab' (List.mem_cons_of_mem _ h'))]
    rw [flagAt_pairStep segs ab i k (hlen ab (List.mem_cons_self _ _)).1
      (hlen ab (List.mem_cons_self _ _)).2]
    rw [pairContrib_congr segs orig hdata ab i k]
    rw [List.any_cons, Bool.or_assoc]

theorem flagAt_map_strip (l : List Seg) (i k : ℕ) :
    flagAt (l.map stripFlagsSeg) i k = false := by
  rw [flagAt, volAt, segAt, getD_map_d stripFlagsSeg stripFlagsSeg_default]
  rw [show (stripFlagsSeg (l.getD i default)).volumes =
      (l.getD i default).volumes.map stripV from rfl]
  rw [getD_map_d stripV stripV_default]
  rfl

theorem mem_allPairs (n : ℕ) (ab : ℕ × ℕ) : ab ∈ allPairs n ↔ ab.1 < n ∧ ab.2 < n := by
  cases ab with
  | mk a b => simp [allPairs]

/-- Spec-side statement that two spheres collide: the distance between their
centers is strictly less than the sum of their radii, written in the
equivalent squared form over ℚ (`Real.sqrt d < r ↔ 0 < r ∧ d < r * r` for
`d ≥ 0`). -/
def spheresCollide (u v : Volume) : Prop :=
  0 < u.radius + v.radius ∧
    distSq u.center v.center < (u.radius + v.radius) * (u.radius + v.radius)

/-- Spec-side adjacency: two index ranges share an index. -/
def sharesIndex (r1 r2 : ℕ × ℕ) : Prop :=
  r1.1 = r2.1 ∨ r1.1 = r2.2 ∨ r1.2 = r2.1 ∨ r1.2 = r2.2

theorem hitB_iff (u v : Volume) : hitB u v = true ↔ spheresCollide u v := by
  simp [hitB, spheresCollide]

theorem volAt_map_strip (l : List Seg) (j k : ℕ) :
    volAt (l.map stripFlagsSeg) j k = stripV (volAt l j k) := by
  rw [volAt, volAt, segAt, segAt, getD_map_d stripFlagsSeg stripFlagsSeg_default]
  rw [show (stripFlagsSeg (l.getD j default)).volumes =
      (l.getD j default).volumes.map stripV from rfl]
  rw [getD_map_d stripV stripV_default]

theorem volLen_map_strip (l : List Seg) (j : ℕ) :
    (segAt (l.map stripFlagsSeg) j).volumes.length = (segAt l j).volumes.length := by
  rw [segAt, segAt, getD_map_d stripFlagsSeg stripFlagsSeg_default]
  simp [stripFlagsSeg]

theorem range_map_strip (l : List Seg) (j : ℕ) :
    (segAt (l.map stripFlagsSeg) j).indexRange = (segAt l j).indexRange := by
  rw [segAt, segAt, getD_map_d stripFlagsSeg stripFlagsSeg_default]
  rfl

theorem updatePositions_length (pos : List Vec3Q) (c : Collision) :
    (updatePositions pos c).armSegments.length = c.armSegments.length := by
  simp [updatePositions]

theorem updatePositions_range (pos : List Vec3Q) (c : Collision) (j : ℕ)
    (hj : j < c.armSegments.length) :
    (segAt (updatePositions pos c).armSegments j).indexRange =
      (segAt c.armSegments j).indexRange := by
  rw [segAt, segAt, List.getD_eq_getElem _ _ hj,
    List.getD_eq_getElem _ _ (by rw [updatePositions_length]; exact hj)]
  simp [updatePositions, List.getElem_mapIdx]

theorem any_volumes_iff (vols : List Volume) (p : Volume → Bool) :
    (vols.any p = true) ↔ ∃ l, l < vols.length ∧ p (vols.getD l default) = true := by
  rw [List.any_eq_true]
  constructor
  · rintro ⟨x, hx, hp⟩
    rw [List.mem_iff_getElem] at hx
    obtain ⟨l, hl, hEq⟩ := hx
    refine ⟨l, hl, ?_⟩
    rw [List.getD_eq_getElem _ _ hl, hEq]
    exact hp
  · rintro ⟨l, hl, hp⟩
    refine ⟨vols.getD l default, ?_, hp⟩
    rw [List.getD_eq_getElem _ _ hl]
    exact List.getElem_mem _

/-- Unfolds one pair's contribution into the existence of a hit in the
direction the inner loops test it. -/
theorem pairContrib_true_iff (segs : List Seg) (ab : ℕ × ℕ) (i k : ℕ) :
    pairContrib segs ab i k = true ↔
      (¬(ab.1 = ab.2 ∨
          (segs.getD ab.1 default).indexRange.1 = (segs.getD ab.2 default).indexRange.2 ∨
          (segs.getD ab.2 default).indexRange.1 = (segs.getD ab.1 default).indexRange.2) ∧
        ((i = ab.1 ∧ k < (segs.getD ab.1 default).volumes.length ∧
            ∃ l, l < (segs.getD ab.2 default).volumes.length ∧
              hitB (volAt segs i k)
                ((segs.getD ab.2 default).volumes.getD l default) = true) ∨
          (i = ab.2 ∧ k < (segs.getD ab.2 default).volumes.length ∧
            ∃ l, l < (segs.getD ab.1 default).volumes.length ∧
              hitB ((segs.getD ab.1 default).volumes.getD l default)
                (volAt segs i k) = true))) := by
  by_cases hg : (ab.1 = ab.2 ∨
      (segs.getD ab.1 default).indexRange.1 = (segs.getD ab.2 default).indexRange.2 ∨
      (segs.getD ab.2 default).indexRange.1 = (segs.getD ab.1 default).indexRange.2)
  · simp only [pairContrib, if_pos hg]
    constructor
    · intro h
      exact (Bool.false_ne_true h).elim
    · rintro ⟨hng, -⟩
      exact absurd hg hng
  · simp only [pairContrib, if_neg hg]
    rw [Bool.or_eq_true, Bool.and_eq_true, Bool.and_eq_true, Bool.and_eq_true,
      Bool.and_eq_true]
    rw [any_volumes_iff, any_volumes_iff]
    simp only [decide_eq_true_eq]
    constructor
    · rintro (⟨⟨h1, h2⟩, h3⟩ | ⟨⟨h1, h2⟩, h3⟩)
      · exact ⟨hg, Or.inl ⟨h1, h2, h3⟩⟩
      · exact ⟨hg, Or.inr ⟨h1, h2, h3⟩⟩
    · rintro ⟨-, (⟨h1, h2, h3⟩ | ⟨h1, h2, h3⟩)⟩
      · exact Or.inl ⟨⟨h1, h2⟩, h3⟩
      · exact Or.inr ⟨⟨h1, h2⟩, h3⟩

theorem updateCollisions_eq (c : Collision) :
    updateCollisions c =
      ⟨(allPairs (c.armSegments.map stripFlagsSeg).length).foldl pairStep
        (c.armSegments.map stripFlagsSeg)⟩ := rfl

theorem pairContrib_pair_iff (segs : List Seg) (a b i k : ℕ) :
    pairContrib segs (a, b) i k = true ↔
      (¬(a = b ∨
          (segs.getD a default).indexRange.1 = (segs.getD b default).indexRange.2 ∨
          (segs.getD b default).indexRange.1 = (segs.getD a default).indexRange.2) ∧
        ((i = a ∧ k < (segs.getD a default).volumes.length ∧
            ∃ l, l < (segs.getD b default).volumes.length ∧
              hitB (volAt segs i k)
                ((segs.getD b default).volumes.getD l default) = true) ∨
          (i = b ∧ k < (segs.getD b default).volumes.length ∧
            ∃ l, l < (segs.getD a default).volumes.length ∧
              hitB ((segs.getD a default).volumes.getD l default)
                (volAt segs i k) = true))) :=
  pairContrib_true_iff segs (a, b) i k

/-- Claim C4: after `Collision.update()` (position refresh, flag clearing,
then the nested non-adjacent-segment sweep), a sphere `(i, k)` is flagged if
and only if some sphere of a segment that is neither its own segment nor
adjacent to it (their index ranges share no index) overlaps it — the distance
between centers is less than the sum of radii.  The hypothesis fixes the
index ranges to the chain form `(j, j+1)` the constructor
`makeCollisionVolumes` produces; the flags of the argument are arbitrary
(previous flags are cleared first). -/
theorem claim_C4_collision_iff :
    ∀ (pos : List Vec3Q) (c : Collision) (i k : ℕ),
      (∀ j, j < c.armSegments.length →
        (c.armSegments.getD j default).indexRange = (j, j + 1)) →
      i < c.armSegments.length →
      (flagAt (collisionUpdate pos c).armSegments i k = true ↔
        ∃ j, j < c.armSegments.length ∧
          ¬sharesIndex ((c.armSegments.getD i default).indexRange)
            ((c.armSegments.getD j default).indexRange) ∧
          k < (segAt (updatePositions pos c).armSegments i).volumes.length ∧
          ∃ l, l < (segAt (updatePositions pos c).armSegments j).volumes.length ∧
            spheresCollide (volAt (updatePositions pos c).armSegments i k)
              (volAt (updatePositions pos c).armSegments j l)) := by
  intro pos c i k hchain hi
  simp only [volAt, segAt]
  set U := (updatePositions pos c).armSegments with hUdef
  set S := U.map stripFlagsSeg with hSdef
  have hUlen : U.length = c.armSegments.length := by
    rw [hUdef]
    exact updatePositions_length pos c
  have hSlen : S.length = c.armSegments.length := by
    rw [hSdef, List.length_map, hUlen]
  have hrangeS : ∀ j, j < c.armSegments.length →
      (S.getD j default).indexRange = (j, j + 1) := by
    intro j hj
    have h2 := range_map_strip U j
    rw [segAt, segAt] at h2
    have h3 := updatePositions_range pos c j hj
    rw [segAt, segAt] at h3
    rw [hSdef, h2, h3]
    exact hchain j hj
  have hlenS : ∀ j, (S.getD j default).volumes.length =
      (U.getD j default).volumes.length := by
    intro j
    have h2 := volLen_map_strip U j
    rw [segAt, segAt] at h2
    rw [hSdef, h2]
  have hvolS : ∀ j l, (S.getD j default).volumes.getD l default =
      stripV ((U.getD j default).volumes.getD l default) := by
    intro j l
    have h2 := volAt_map_strip U j l
    rw [volAt, volAt, segAt, segAt] at h2
    rw [hSdef, h2]
  have hstep : (collisionUpdate pos c).armSegments = (allPairs S.length).foldl pairStep S := by
    rw [show collisionUpdate pos c = updateCollisions (updatePositions pos c) from rfl,
      updateCollisions_eq]
  rw [hstep]
  rw [flagAt_foldl_pairStep S (allPairs S.length) S rfl
    (fun ab hab => (mem_allPairs _ ab).mp hab) i k]
  rw [show flagAt S i k = false from by rw [hSdef]; exact flagAt_map_strip U i k,
    Bool.false_or]
  rw [List.any_eq_true]
  constructor
  · rintro ⟨⟨a, b⟩, habmem, hcontrib⟩
    rw [mem_allPairs] at habmem
    have ha1 : a < c.armSegments.length := hSlen ▸ habmem.1
    have hb1 : b < c.armSegments.length := hSlen ▸ habmem.2
    rw [pairContrib_pair_iff] at hcontrib
    obtain ⟨hng, hcase⟩ := hcontrib
    have hra : (S.getD a default).indexRange.1 = a ∧
        (S.getD a default).indexRange.2 = a + 1 := by
      rw [hrangeS a ha1]
      exact ⟨rfl, rfl⟩
    have hrb : (S.getD b default).indexRange.1 = b ∧
        (S.getD b default).indexRange.2 = b + 1 := by
      rw [hrangeS b hb1]
      exact ⟨rfl, rfl⟩
    rw [hra.1, hra.2, hrb.1, hrb.2] at hng
    push_neg at hng
    obtain ⟨hg1, hg2, hg3⟩ := hng
    rcases hcase with ⟨hia, hk, l, hl, hhit⟩ | ⟨hib, hk, l, hl, hhit⟩
    · refine ⟨b, hb1, ?_, ?_, l, ?_, ?_⟩
      · rw [hchain i hi, hchain b hb1]
        intro hsh
        have hsh2 : i = b ∨ i = b + 1 ∨ i + 1 = b ∨ i + 1 = b + 1 := hsh
        subst hia
        omega
      · rw [← hia] at hk
        rw [hlenS i] at hk
        exact hk
      · rw [hlenS b] at hl
        exact hl
      · have hhit2 : hitB ((S.getD i default).volumes.getD k default)
            ((S.getD b default).volumes.getD l default) = true := hhit
        rw [hvolS i k, hvolS b l, hitB_stripV_left, hitB_stripV_right] at hhit2
        exact (hitB_iff _ _).mp hhit2
    · refine ⟨a, ha1, ?_, ?_, l, ?_, ?_⟩
      · rw [hchain i hi, hchain a ha1]
        intro hsh
        have hsh2 : i = a ∨ i = a + 1 ∨ i + 1 = a ∨ i + 1 = a + 1 := hsh
        subst hib
        omega
      · rw [← hib] at hk
        rw [hlenS i] at hk
        exact hk
      · rw [hlenS a] at hl
        exact hl
      · have hhit2 : hitB ((S.getD a default).volumes.getD l default)
            ((S.getD i default).volumes.getD k default) = true := hhit
        rw [hvolS a l, hvolS i k, hitB_stripV_left, hitB_stripV_right,
          hitB_symm] at hhit2
        exact (hitB_iff _ _).mp hhit2
  · rintro ⟨j, hj, hshare, hk, l, hl, hcol⟩
    refine ⟨(i, j), ?_, ?_⟩
    · rw [mem_allPairs]
      exact ⟨by rw [hSlen]; exact hi, by rw [hSlen]; exact hj⟩
    · rw [pairContrib_pair_iff]
      rw [hchain i hi, hchain j hj] at hshare
      have hshare2 : ¬(i = j ∨ i = j + 1 ∨ i + 1 = j ∨ i + 1 = j + 1) := hshare
      have hri : (S.getD i default).indexRange.1 = i ∧
          (S.getD i default).indexRange.2 = i + 1 := by
        rw [hrangeS i hi]
        exact ⟨rfl, rfl⟩
      have hrj : (S.getD j default).indexRange.1 = j ∧
          (S.getD j default).indexRange.2 = j + 1 := by
        rw [hrangeS j hj]
        exact ⟨rfl, rfl⟩
      refine ⟨?_, Or.inl ⟨rfl, ?_, l, ?_, ?_⟩⟩
      · rw [hri.1, hri.2, hrj.1, hrj.2]
        omega
      · rw [hlenS i]
        exact hk
      · rw [hlenS j]
        exact hl
      · have h5 : hitB (stripV ((U.getD i default).volumes.getD k default))
            (stripV ((U.getD j default).volumes.getD l default)) = true := by
          rw [hitB_stripV_left, hitB_stripV_right]
          exact (hitB_iff _ _).mpr hcol
        rw [← hvolS i k, ← hvolS j l] at h5
        exact h5

/-- Concrete positions for the C4 witness: a four-point chain. -/
def c4pos : List Vec3Q := [⟨0, 0, 0⟩, ⟨5, 0, 0⟩, ⟨1, 0, 0⟩, ⟨6, 0, 0⟩]

/-- Concrete collision state for the C4 witness: three chain segments; the
first and third carry one sphere each (with stale centers and one stale flag,
both refreshed by `update`), the middle one none. -/
def c4col : Collision :=
  ⟨[⟨(0, 1), [⟨false, ⟨9, 9, 9⟩, 1, 0⟩]⟩, ⟨(1, 2), []⟩,
    ⟨(2, 3), [⟨true, ⟨8, 8, 8⟩, 1, 0⟩]⟩]⟩

/-- Witness for C4: on the concrete state the spheres of the two non-adjacent
segments overlap after the position refresh, so the sphere (0, 0) is flagged. -/
theorem claim_C4_witness :
    flagAt (collisionUpdate c4pos c4col).armSegments 0 0 = true := by
  refine (claim_C4_collision_iff c4pos c4col 0 0 ?_ ?_).mpr ?_
  · intro j hj
    have hj3 : j < 3 := by simpa [c4col] using hj
    interval_cases j <;> rfl
  · simp [c4col]
  · refine ⟨2, by simp [c4col], ?_, ?_, 0, ?_, ?_⟩
    · simp [c4col, sharesIndex]
    · simp [segAt, updatePositions, c4pos, c4col]
    · simp [segAt, updatePositions, c4pos, c4col]
    · norm_num [volAt, segAt, updatePositions, lerpQ, lerpQS, distSq, spheresCollide,
        c4pos, c4col]

end RobotControl
